import Mathlib

/-!
Verification of `list-docker-registry-images` (Go, two near-duplicate source
files `list_docker_registry_images.go` and `regman.go`) against its
natural-language specification.

Shallow embedding conventions:
* timestamps (`time.Time` values obtained from `time.Parse(time.RFC3339Nano, _)`)
  are modelled as `Nat` (nanoseconds since an epoch); the Go zero `time.Time`
  is `0`; `time.Time.After` is `>` and `Before` is `<`;
* a history entry of a manifest is modelled by whether its embedded
  `v1Compatibility` JSON unmarshals (`v1Parses`) and by the result of parsing
  its `created` field (`created = none` models a timestamp-parse failure, in
  which case Go's ignored-error pattern `created, _ := time.Parse(...)` yields
  the zero time);
* the registry server is a `World`: the outcome of each HTTP fetch+decode,
  `none` meaning the fetch or top-level decode failed;
* each goroutine of `getRepoInfo` is reduced to its externally visible
  script of atomic actions: channel sends (which rendezvous with the
  dispatcher), `wg.Add`, the deferred `wg.Done`, and the panic of
  `h[len(h)-1]` on an empty slice; the dispatcher loop, the unbuffered
  channel, the WaitGroup counter and the watcher goroutine form a
  small-step transition relation `Step` over `SysState`.
-/

/-- Nanoseconds since epoch; `0` is Go's zero `time.Time`. -/
abbrev Timestamp := Nat

/-- One element of the manifest's `history` array, abstracted to the two
parse outcomes the code depends on: whether `json.Unmarshal` of the embedded
`v1Compatibility` string succeeds, and the result of
`time.Parse(time.RFC3339Nano, msg["created"])` (`none` = parse error). -/
structure HistoryEntry where
  v1Parses : Bool
  created : Option Timestamp
deriving DecidableEq, Repr

/-- Outcome of the inline history analysis of `fetchDetailOfTag`:
`abort` = the loop hit an entry whose embedded JSON fails to unmarshal
(`log.Println(err); return`), `crash` = the index expression `h[len(h)-1]`
panics because `h` is empty, `created t` = the tag detail message carries
timestamp `t`. -/
inductive AnalyzeResult
  | abort
  | crash
  | created (t : Timestamp)
deriving DecidableEq, Repr

/-- The collection loop of `fetchDetailOfTag`: walk the history entries in
order, stop with `none` at the first entry whose `v1Compatibility` JSON does
not unmarshal (the Go code returns from the whole function there), otherwise
collect `created` with the parse error ignored (zero time on failure). -/
def collectTimes : List HistoryEntry → Option (List Timestamp)
  | [] => some []
  | e :: rest =>
    if e.v1Parses then (collectTimes rest).map (fun ts => e.created.getD 0 :: ts)
    else none

/-- Insertion into an ascending list, used to model
`sort.Slice(h, func(i,j) { return h[i].Before(h[j]) })`: on plain timestamp
values any comparison-sorted permutation is the same list, so a deterministic
insertion sort is an exact model of the sorted value sequence. -/
def insertAsc (x : Timestamp) : List Timestamp → List Timestamp
  | [] => [x]
  | y :: ys => if x ≤ y then x :: y :: ys else y :: insertAsc x ys

/-- Ascending sort of the collected timestamps. -/
def sortAsc : List Timestamp → List Timestamp
  | [] => []
  | x :: xs => insertAsc x (sortAsc xs)

/-- The history analysis inlined in `fetchDetailOfTag`: collect the per-entry
timestamps (aborting on an unmarshal error), sort ascending, and read
`h[len(h)-1]`, which panics when `h` is empty. -/
def analyzeHistory (history : List HistoryEntry) : AnalyzeResult :=
  match collectTimes history with
  | none => .abort
  | some ts =>
    match (sortAsc ts).getLast? with
    | none => .crash
    | some t => .created t

/-- Maximum of a list of timestamps (with `0`, the zero time, for `[]`). -/
def listMax : List Timestamp → Timestamp
  | [] => 0
  | x :: xs => max x (listMax xs)

/-- Read error from `ioutil.ReadAll`: either `io.EOF` or any other error. -/
inductive ReadErr
  | eof
  | other
deriving DecidableEq, Repr

/-- The part of an `http.Response` that `getForMap` (`getAsMap` in
`regman.go`) inspects: the status code, the outcome of `ioutil.ReadAll`
on the body (`none` = success), and the result of `json.Unmarshal` on the
bytes that were read (`none` = the bytes are empty or not valid JSON).
The decoded document is abstract (`α`) since `getForMap` never inspects it. -/
structure HttpResponse (α : Type) where
  statusCode : Int
  readAllErr : Option ReadErr
  bodyJson : Option α
deriving DecidableEq, Repr

/-- Error classes `getForMap` can return: the error of `httpClient.Get`,
the error of `ioutil.ReadAll` passed through, or the error of
`json.Unmarshal`. There is no constructor for an HTTP-status error because
the source never builds one. -/
inductive FetchErr
  | network
  | readFailed (e : ReadErr)
  | decodeFailed
deriving DecidableEq, Repr

/-- Embedding of `getForMap` (`list_docker_registry_images.go` 73-92) and the
identical `getAsMap` (`regman.go` 36-56, which only adds a request counter):
return the `Get` error if any; if `ReadAll` failed and
`err != io.EOF || status < 200 || status >= 300`, return the read error;
otherwise `json.Unmarshal` the bytes read, returning its error or the map. -/
def getForMap {α : Type} (r : Except Unit (HttpResponse α)) : Except FetchErr α :=
  match r with
  | .error _ => .error .network
  | .ok res =>
    match res.readAllErr with
    | some e =>
      if e ≠ ReadErr.eof ∨ res.statusCode < 200 ∨ 300 ≤ res.statusCode then
        .error (.readFailed e)
      else
        match res.bodyJson with
        | none => .error .decodeFailed
        | some m => .ok m
    | none =>
      match res.bodyJson with
      | none => .error .decodeFailed
      | some m => .ok m

/-- One entry of the configuration's registry table
(`type Registry` in both source files). -/
structure Registry where
  Alias : String
  Host : String
  Port : Int
  Schema : String
  Addr : String
deriving DecidableEq, Repr

/-- The loaded configuration (`type Config`). -/
structure Config where
  Registries : List Registry
deriving DecidableEq, Repr

/-- ASCII lowering of one character (Go's simple case folding restricted to
the ASCII alias strings the configuration uses). -/
def lowerChar (c : Char) : Char :=
  if 65 ≤ c.toNat ∧ c.toNat ≤ 90 then Char.ofNat (c.toNat + 32) else c

/-- ASCII lowering of a string, character by character. -/
def lowerStr (s : String) : String := ⟨s.data.map lowerChar⟩

/-- Model of Go's `strings.EqualFold` on the ASCII alias strings of the
configuration: case-insensitive equality, i.e. equality after lowering. -/
def equalFold (s t : String) : Bool := lowerStr s == lowerStr t

/-- Embedding of `(conf *Config).findRegistry` (both source files): scan
`conf.Registries` in order and return the first entry whose `Alias` is
`EqualFold`-equal to the query; Go's `(nil, false)` is `none`. -/
def findRegistryAux : List Registry → String → Option Registry
  | [], _ => none
  | r :: rest, a => if equalFold r.Alias a then some r else findRegistryAux rest a

def findRegistry (conf : Config) (a : String) : Option Registry :=
  findRegistryAux conf.Registries a

/-- The three payload kinds flowing through the `data` channel of
`getRepoInfo`: `PayLoad{Type: "rs"/"repos"}`, `{Type: "ts"/"tags"}`,
`{Type: "td"/"tagDetail"}`, with the fields each kind carries. -/
inductive Msg
  | repoList (repos : List String)
  | tagList (repo : String) (tags : List String)
  | tagDetail (repo : String) (tag : String) (created : Timestamp)
deriving DecidableEq, Repr

/-- Externally visible atomic actions of one goroutine: a channel send
(which rendezvouses with the dispatcher on the unbuffered channel),
`wg.Add n`, the (deferred) `wg.Done`, and a runtime panic. -/
inductive TaskAction
  | send (m : Msg)
  | add (n : Nat)
  | done
  | crash
deriving DecidableEq, Repr

/-- The registry server and the JSON decoding of its responses, as seen by
the three fetch functions: `none` models a failed fetch or an undecodable
top-level document (the `getForMap`/`getAsMap` error paths). -/
structure World where
  catalog : Option (List String)
  tagsOf : String → Option (List String)
  manifestOf : String → String → Option (List HistoryEntry)

/-- Script of `fetchRepos`: on a fetch error, log and return (only the
deferred `wg.Done` runs); on success, send the `RepoList` payload, then
`wg.Add(len(repos))`, then return (`wg.Done`). -/
def fetchRepos (w : World) : List TaskAction :=
  match w.catalog with
  | none => [.done]
  | some repos => [.send (.repoList repos), .add repos.length, .done]

/-- Script of `fetchTags addr repo`: on a fetch error, log and return; on
success, send the `TagList` payload, then `wg.Add(len(tags))`, then return. -/
def fetchTags (w : World) (repo : String) : List TaskAction :=
  match w.tagsOf repo with
  | none => [.done]
  | some tags => [.send (.tagList repo tags), .add tags.length, .done]

/-- Script of `fetchDetailOfTag addr repo tag`: on a fetch error or when a
history entry's embedded JSON fails to unmarshal, log and return; when the
collected slice `h` is empty, panic at `h[len(h)-1]`; otherwise send the
`TagDetail` payload carrying the last element of the ascending sort. -/
def fetchDetailOfTag (w : World) (repo tag : String) : List TaskAction :=
  match w.manifestOf repo tag with
  | none => [.done]
  | some hist =>
    match analyzeHistory hist with
    | .abort => [.done]
    | .crash => [.crash]
    | .created t => [.send (.tagDetail repo tag t), .done]

/-- One `TagDetail` record of the final result (`type TagDetail`). -/
structure TagDetail where
  Tag : String
  Created : Timestamp
deriving DecidableEq, Repr

/-- Lookup in the dispatcher's `result` map, modelled as an association
list keyed by repository name. -/
def lookupRepo (res : List (String × List TagDetail)) (k : String) : Option (List TagDetail) :=
  match res with
  | [] => none
  | (k2, v) :: rest => if k2 = k then some v else lookupRepo rest k

/-- The `DataTypeTagDetail` branch of the dispatcher: create the entry if
absent (`make([]TagDetail, 0)`), then append the new detail. -/
def insertDetail (res : List (String × List TagDetail)) (repo : String) (d : TagDetail) :
    List (String × List TagDetail) :=
  match res with
  | [] => [(repo, [d])]
  | (k, v) :: rest =>
    if k = repo then (k, v ++ [d]) :: rest else (k, v) :: insertDetail rest repo d

/-- Dispatcher processing of one received payload (the `switch payload.Type`
of `getRepoInfo`): returns the updated result map and the scripts of the
goroutines spawned by the handler (`go fetchTags ...` / `go fetchDetailOfTag ...`). -/
def processMsg (w : World) (res : List (String × List TagDetail)) :
    Msg → List (String × List TagDetail) × List (List TaskAction)
  | .repoList repos => (res, repos.map (fun r => fetchTags w r))
  | .tagList repo tags => (res, tags.map (fun t => fetchDetailOfTag w repo t))
  | .tagDetail repo tag t => (insertDetail res repo ⟨tag, t⟩, [])

/-- One possible outcome of
`sort.Slice(tags, func(i,j) { return tags[i].Created.After(tags[j].Created) })`:
a permutation of the input in which no later element has a strictly greater
`Created` than an earlier one. The comparator ignores tag names, so any
order among entries with equal `Created` is a possible outcome of the
(unstable) sort. -/
def SortedDesc (inp outp : List TagDetail) : Prop :=
  outp.Perm inp ∧ outp.Pairwise (fun a b => b.Created ≤ a.Created)

/-- The finalization loop of `getRepoInfo` (`case <- done`): every repository
keeps its key and its value list is replaced by a sorted permutation. -/
inductive SortedResult : List (String × List TagDetail) → List (String × List TagDetail) → Prop
  | nil : SortedResult [] []
  | cons (k : String) (v v2 : List TagDetail) (rest rest2 : List (String × List TagDetail)) :
      SortedDesc v v2 → SortedResult rest rest2 →
      SortedResult ((k, v) :: rest) ((k, v2) :: rest2)

/-- Global state of one run of `getRepoInfo`: the WaitGroup counter, the
scripts of the live goroutines, the dispatcher's `result` map, whether the
watcher's `wg.Wait()` has returned (`fired`), whether the dispatcher took the
`<- done` branch (`finalized`, with the sorted `finalResult`), whether some
goroutine panicked, and the ghost trace of payloads the dispatcher has
processed. -/
structure SysState where
  counter : Int
  tasks : List (List TaskAction)
  result : List (String × List TagDetail)
  fired : Bool
  finalized : Bool
  finalResult : List (String × List TagDetail)
  crashed : Bool
  processed : List Msg
deriving Repr

/-- State at the top of `getRepoInfo`: `wg.Add(1)` then `go fetchRepos`. -/
def initState (w : World) : SysState :=
  { counter := 1
    tasks := [fetchRepos w]
    result := []
    fired := false
    finalized := false
    finalResult := []
    crashed := false
    processed := [] }

/-- Interleaving semantics of `getRepoInfo` and the goroutines it spawns.
A scheduler picks any runnable goroutine action: `wg.Add` and `wg.Done`
execute on the shared counter; a channel send rendezvouses with the
dispatcher, which atomically runs the matching `switch` branch (spawning
child goroutines and/or updating `result`) before selecting again; the
watcher's `wg.Wait()` returns whenever it observes a zero counter; the
delivery of the `done` signal makes the dispatcher sort and return. -/
inductive Step (w : World) : SysState → SysState → Prop
  | runAdd {s : SysState} (i n : Nat) (rest : List TaskAction)
      (hc : s.crashed = false)
      (h : s.tasks.get? i = some (TaskAction.add n :: rest)) :
      Step w s { s with counter := s.counter + n, tasks := s.tasks.set i rest }
  | runDone {s : SysState} (i : Nat) (rest : List TaskAction)
      (hc : s.crashed = false)
      (h : s.tasks.get? i = some (TaskAction.done :: rest)) :
      Step w s { s with counter := s.counter - 1, tasks := s.tasks.set i rest }
  | runCrash {s : SysState} (i : Nat) (rest : List TaskAction)
      (hc : s.crashed = false)
      (h : s.tasks.get? i = some (TaskAction.crash :: rest)) :
      Step w s { s with crashed := true }
  | runSend {s : SysState} (i : Nat) (m : Msg) (rest : List TaskAction)
      (hc : s.crashed = false)
      (hf : s.finalized = false)
      (h : s.tasks.get? i = some (TaskAction.send m :: rest)) :
      Step w s { s with
        tasks := s.tasks.set i rest ++ (processMsg w s.result m).2
        result := (processMsg w s.result m).1
        processed := s.processed ++ [m] }
  | waitReturns {s : SysState}
      (hc : s.crashed = false)
      (h0 : s.counter = 0)
      (hf : s.fired = false) :
      Step w s { s with fired := true }
  | deliverDone {s : SysState} (outp : List (String × List TagDetail))
      (hc : s.crashed = false)
      (hfd : s.fired = true)
      (hfin : s.finalized = false)
      (hsort : SortedResult s.result outp) :
      Step w s { s with finalized := true, finalResult := outp }

/-- States one run of `getRepoInfo` can reach under some scheduling. -/
def Reachable (w : World) (s : SysState) : Prop :=
  Relation.ReflTransGen (Step w) (initState w) s

/-- Registry world for the completion-detection race: the catalog lists two
repositories, fetching the tag list of `r1` fails fast, `r2` has one live
tag. -/
def w1 : World :=
  { catalog := some ["r1", "r2"]
    tagsOf := fun r => if r = "r2" then some ["t"] else none
    manifestOf := fun r t => if r = "r2" ∧ t = "t" then some [⟨true, some 7⟩] else none }

def c1s1 : SysState :=
  { counter := 1
    tasks := [[.add 2, .done], [.done], [.send (.tagList "r2" ["t"]), .add 1, .done]]
    result := []
    fired := false
    finalized := false
    finalResult := []
    crashed := false
    processed := [.repoList ["r1", "r2"]] }

def c1s2 : SysState :=
  { c1s1 with counter := 0, tasks := [[.add 2, .done], [], [.send (.tagList "r2" ["t"]), .add 1, .done]] }

def c1s3 : SysState := { c1s2 with fired := true }

/-- The state reached when `fetchTags("r1")` retires the only registered unit
before `fetchRepos` has executed `wg.Add(2)`: the watcher fired and the
dispatcher finalized with an empty result while `fetchRepos` still has
`wg.Add(2)` pending and `fetchTags("r2")` has not been processed at all. -/
def sBadC1 : SysState := { c1s3 with finalized := true, finalResult := [] }

/-- Registry world for a complete run: one repository `r` with two tags
`a` and `b` whose manifests carry the same creation timestamp `5`. -/
def w2 : World :=
  { catalog := some ["r"]
    tagsOf := fun r => if r = "r" then some ["a", "b"] else none
    manifestOf := fun r t =>
      if r = "r" ∧ (t = "a" ∨ t = "b") then some [⟨true, some 5⟩] else none }

def c5s1 : SysState :=
  { counter := 1
    tasks := [[.add 1, .done], [.send (.tagList "r" ["a", "b"]), .add 2, .done]]
    result := []
    fired := false
    finalized := false
    finalResult := []
    crashed := false
    processed := [.repoList ["r"]] }

def c5s2 : SysState :=
  { c5s1 with counter := 2, tasks := [[.done], [.send (.tagList "r" ["a", "b"]), .add 2, .done]] }

def c5s3 : SysState :=
  { c5s1 with counter := 1, tasks := [[], [.send (.tagList "r" ["a", "b"]), .add 2, .done]] }

def c5s4 : SysState :=
  { c5s1 with
    counter := 1
    tasks := [[], [.add 2, .done],
      [.send (.tagDetail "r" "a" 5), .done], [.send (.tagDetail "r" "b" 5), .done]]
    processed := [.repoList ["r"], .tagList "r" ["a", "b"]] }

def c5s5 : SysState :=
  { c5s4 with
    counter := 3
    tasks := [[], [.done],
      [.send (.tagDetail "r" "a" 5), .done], [.send (.tagDetail "r" "b" 5), .done]] }

def c5s6 : SysState :=
  { c5s4 with
    counter := 2
    tasks := [[], [],
      [.send (.tagDetail "r" "a" 5), .done], [.send (.tagDetail "r" "b" 5), .done]] }

def c5s7 : SysState :=
  { c5s4 with
    counter := 2
    tasks := [[], [], [.send (.tagDetail "r" "a" 5), .done], [.done]]
    result := [("r", [⟨"b", 5⟩])]
    processed := [.repoList ["r"], .tagList "r" ["a", "b"], .tagDetail "r" "b" 5] }

def c5s8 : SysState :=
  { c5s7 with counter := 1, tasks := [[], [], [.send (.tagDetail "r" "a" 5), .done], []] }

def c5s9 : SysState :=
  { c5s7 with
    counter := 1
    tasks := [[], [], [.done], []]
    result := [("r", [⟨"b", 5⟩, ⟨"a", 5⟩])]
    processed := [.repoList ["r"], .tagList "r" ["a", "b"], .tagDetail "r" "b" 5,
      .tagDetail "r" "a" 5] }

def c5s10 : SysState :=
  { c5s9 with counter := 0, tasks := [[], [], [], []] }

def c5s11 : SysState := { c5s10 with fired := true }

/-- Finished run of `w2` in which the detail of tag `b` was processed before
the detail of tag `a`: both carry `Created = 5`, and the final sorted
sequence keeps them in arrival order `b, a`. -/
def w2Final : SysState :=
  { c5s11 with finalized := true, finalResult := [("r", [⟨"b", 5⟩, ⟨"a", 5⟩])] }

/-- The repository list of the catalog response (empty when the root fetch
fails, in which case no `RepoList` payload is ever sent). -/
def catalogRepos (w : World) : List String := w.catalog.getD []

/-- Provenance of a payload: every repository name it mentions comes from
the catalog response. -/
def MsgOk (w : World) : Msg → Prop
  | .repoList rs => ∀ r ∈ rs, r ∈ catalogRepos w
  | .tagList repo _ => repo ∈ catalogRepos w
  | .tagDetail repo _ _ => repo ∈ catalogRepos w

/-- A goroutine script only ever sends provenance-respecting payloads. -/
def ScriptOk (w : World) (t : List TaskAction) : Prop :=
  ∀ m : Msg, TaskAction.send m ∈ t → MsgOk w m

/-- Run invariant of `getRepoInfo`: every live goroutine only sends payloads
whose repository names come from the catalog response; every key of the
`result` map came from a processed `TagDetail` payload, belongs to the
catalog list, and maps to a nonempty sequence; and once finalized, the
`finalResult` map has the same keys, nonempty per-key sequences that are
sorted non-increasingly by `Created`. -/
structure RunInv (w : World) (s : SysState) : Prop where
  tasksOk : ∀ t ∈ s.tasks, ScriptOk w t
  resultKeys : ∀ k, (lookupRepo s.result k).isSome = true → k ∈ catalogRepos w
  resultNonempty : ∀ k l, lookupRepo s.result k = some l → l ≠ []
  resultIff : ∀ k, (lookupRepo s.result k).isSome = true ↔
    ∃ tg ts, Msg.tagDetail k tg ts ∈ s.processed
  finKeys : s.finalized = true → ∀ k,
    (lookupRepo s.finalResult k).isSome = true → k ∈ catalogRepos w
  finNonempty : s.finalized = true → ∀ k l, lookupRepo s.finalResult k = some l → l ≠ []
  finSorted : s.finalized = true → ∀ k l, lookupRepo s.finalResult k = some l →
    l.Pairwise (fun a b => b.Created ≤ a.Created)
  finIff : s.finalized = true → ∀ k, (lookupRepo s.finalResult k).isSome = true ↔
    ∃ tg ts, Msg.tagDetail k tg ts ∈ s.processed

/-- World whose only manifest has one entry that unmarshals but whose
`created` field fails to parse as RFC3339Nano. -/
def w3 : World :=
  { catalog := none
    tagsOf := fun _ => none
    manifestOf := fun r t => if r = "r" ∧ t = "t" then some [⟨true, none⟩] else none }

/-- World where every fetch fails except one manifest whose single history
entry has undecodable embedded JSON. -/
def w4 : World :=
  { catalog := none
    tagsOf := fun _ => none
    manifestOf := fun r t => if r = "r" ∧ t = "t" then some [⟨false, none⟩] else none }

/-- World whose only manifest has a valid first entry (timestamp `5`)
followed by an entry with undecodable embedded JSON. -/
def w5 : World :=
  { catalog := none
    tagsOf := fun _ => none
    manifestOf := fun r t =>
      if r = "r" ∧ t = "t" then some [⟨true, some 5⟩, ⟨false, none⟩] else none }

/-- World whose only manifest has an empty history list. -/
def w6 : World :=
  { catalog := none
    tagsOf := fun _ => none
    manifestOf := fun r t => if r = "r" ∧ t = "t" then some [] else none }

/-- The three registries of the default configuration written by
`initConfig`, the last two sharing the alias `reg01`. -/
def regLocal : Registry := ⟨"local", "127.0.0.1", 5001, "http", ""⟩

def regA : Registry := ⟨"reg01", "reg01.example.org", 443, "https", ""⟩

def regB : Registry := ⟨"reg01", "reg01.example.org", 55001, "http", ""⟩

def conf0 : Config := ⟨[regLocal, regA, regB]⟩

lemma insertAsc_ne_nil (x : Timestamp) (l : List Timestamp) : insertAsc x l ≠ [] := by
  cases l with
  | nil => simp [insertAsc]
  | cons y ys =>
    simp only [insertAsc]
    split <;> simp

lemma sortAsc_ne_nil (x : Timestamp) (l : List Timestamp) : sortAsc (x :: l) ≠ [] := by
  simp only [sortAsc]
  exact insertAsc_ne_nil _ _

lemma listMax_insertAsc (x : Timestamp) (l : List Timestamp) :
    listMax (insertAsc x l) = max x (listMax l) := by
  induction l with
  | nil => simp [insertAsc, listMax]
  | cons y ys ih =>
    simp only [insertAsc]
    split
    · simp [listMax]
    · simp only [listMax, ih]
      exact max_left_comm y x (listMax ys)

lemma listMax_sortAsc (l : List Timestamp) : listMax (sortAsc l) = listMax l := by
  induction l with
  | nil => rfl
  | cons x xs ih => simp [sortAsc, listMax_insertAsc, ih, listMax]

lemma mem_insertAsc (b x : Timestamp) :
    ∀ l : List Timestamp, b ∈ insertAsc x l ↔ b = x ∨ b ∈ l := by
  intro l
  induction l with
  | nil => simp [insertAsc]
  | cons y ys ih =>
    simp only [insertAsc]
    split
    · simp [List.mem_cons]
    · simp only [List.mem_cons, ih]
      tauto

lemma pairwise_insertAsc (x : Timestamp) (l : List Timestamp)
    (h : l.Pairwise (· ≤ ·)) : (insertAsc x l).Pairwise (· ≤ ·) := by
  induction l with
  | nil => simp [insertAsc]
  | cons y ys ih =>
    rcases List.pairwise_cons.mp h with ⟨hy, hys⟩
    simp only [insertAsc]
    split
    · rename_i hxy
      refine List.pairwise_cons.mpr ⟨?_, h⟩
      intro b hb
      rcases List.mem_cons.mp hb with rfl | hb
      · exact hxy
      · exact le_trans hxy (hy b hb)
    · rename_i hxy
      refine List.pairwise_cons.mpr ⟨?_, ih hys⟩
      intro b hb
      rcases (mem_insertAsc b x ys).mp hb with rfl | hb2
      · exact le_of_not_le hxy
      · exact hy b hb2

lemma pairwise_sortAsc (l : List Timestamp) : (sortAsc l).Pairwise (· ≤ ·) := by
  induction l with
  | nil => simp [sortAsc]
  | cons x xs ih => exact pairwise_insertAsc x _ ih

lemma getLast?_sorted_eq_listMax :
    ∀ l : List Timestamp, l.Pairwise (· ≤ ·) → l ≠ [] → l.getLast? = some (listMax l) := by
  intro l
  induction l with
  | nil => intro _ h; exact absurd rfl h
  | cons x xs ih =>
    intro hp _
    cases xs with
    | nil => simp [listMax]
    | cons y ys =>
      rcases List.pairwise_cons.mp hp with ⟨hx, hrest⟩
      have h1 : (y :: ys).getLast? = some (listMax (y :: ys)) := ih hrest (by simp)
      have h2 : (x :: y :: ys).getLast? = (y :: ys).getLast? := by
        simp [List.getLast?_cons_cons]
      have hxle : x ≤ listMax (y :: ys) := by
        have hxy : x ≤ y := hx y (by simp)
        have hyle : y ≤ listMax (y :: ys) := by
          simp only [listMax]
          exact le_max_left _ _
        exact le_trans hxy hyle
      rw [h2, h1]
      simp only [listMax] at hxle ⊢
      rw [max_eq_right hxle]

lemma collectTimes_all_parse (hist : List HistoryEntry)
    (h : ∀ e ∈ hist, e.v1Parses = true) :
    collectTimes hist = some (hist.map (fun e => e.created.getD 0)) := by
  induction hist with
  | nil => rfl
  | cons e rest ih =>
    have he : e.v1Parses = true := h e (by simp)
    have hrest : ∀ x ∈ rest, x.v1Parses = true := fun x hx => h x (by simp [hx])
    simp [collectTimes, he, ih hrest]

lemma analyzeHistory_all_parse (hist : List HistoryEntry)
    (h1 : hist ≠ []) (h2 : ∀ e ∈ hist, e.v1Parses = true) :
    analyzeHistory hist = .created (listMax (hist.map (fun e => e.created.getD 0))) := by
  have hne : hist.map (fun e => e.created.getD 0) ≠ [] := by
    cases hist with
    | nil => exact absurd rfl h1
    | cons a l => simp
  have hsne : sortAsc (hist.map (fun e => e.created.getD 0)) ≠ [] := by
    cases hmap : hist.map (fun e => e.created.getD 0) with
    | nil => exact absurd hmap hne
    | cons a l => exact sortAsc_ne_nil a l
  have hlast := getLast?_sorted_eq_listMax _ (pairwise_sortAsc (hist.map (fun e => e.created.getD 0))) hsne
  unfold analyzeHistory
  rw [collectTimes_all_parse hist h2]
  simp only [hlast, listMax_sortAsc]

lemma listMax_all_zero (l : List Timestamp) (h : ∀ x ∈ l, x = 0) : listMax l = 0 := by
  induction l with
  | nil => rfl
  | cons x xs ih =>
    have hx : x = 0 := h x (by simp)
    have : listMax xs = 0 := ih (fun y hy => h y (by simp [hy]))
    simp [listMax, hx, this]

lemma c1step1 : Step w1 (initState w1) c1s1 :=
  Step.runSend 0 (.repoList ["r1", "r2"]) [.add 2, .done] rfl rfl rfl

lemma c1step2 : Step w1 c1s1 c1s2 :=
  Step.runDone 1 [] rfl rfl

lemma c1step3 : Step w1 c1s2 c1s3 :=
  Step.waitReturns rfl rfl rfl

lemma c1step4 : Step w1 c1s3 sBadC1 :=
  Step.deliverDone [] rfl rfl rfl SortedResult.nil

lemma reach_w1_bad : Reachable w1 sBadC1 :=
  Relation.ReflTransGen.head c1step1
    (Relation.ReflTransGen.head c1step2
      (Relation.ReflTransGen.head c1step3
        (Relation.ReflTransGen.head c1step4 Relation.ReflTransGen.refl)))

lemma c5step1 : Step w2 (initState w2) c5s1 :=
  Step.runSend 0 (.repoList ["r"]) [.add 1, .done] rfl rfl rfl

lemma c5step2 : Step w2 c5s1 c5s2 := Step.runAdd 0 1 [.done] rfl rfl

lemma c5step3 : Step w2 c5s2 c5s3 := Step.runDone 0 [] rfl rfl

lemma c5step4 : Step w2 c5s3 c5s4 :=
  Step.runSend 1 (.tagList "r" ["a", "b"]) [.add 2, .done] rfl rfl rfl

lemma c5step5 : Step w2 c5s4 c5s5 := Step.runAdd 1 2 [.done] rfl rfl

lemma c5step6 : Step w2 c5s5 c5s6 := Step.runDone 1 [] rfl rfl

lemma c5step7 : Step w2 c5s6 c5s7 :=
  Step.runSend 3 (.tagDetail "r" "b" 5) [.done] rfl rfl rfl

lemma c5step8 : Step w2 c5s7 c5s8 := Step.runDone 3 [] rfl rfl

lemma c5step9 : Step w2 c5s8 c5s9 :=
  Step.runSend 2 (.tagDetail "r" "a" 5) [.done] rfl rfl rfl

lemma c5step10 : Step w2 c5s9 c5s10 := Step.runDone 2 [] rfl rfl

lemma c5step11 : Step w2 c5s10 c5s11 := Step.waitReturns rfl rfl rfl

lemma c5step12 : Step w2 c5s11 w2Final :=
  Step.deliverDone [("r", [⟨"b", 5⟩, ⟨"a", 5⟩])] rfl rfl rfl
    (SortedResult.cons "r" _ _ [] [] ⟨List.Perm.refl _, by decide⟩ SortedResult.nil)

lemma reach_w2_final : Reachable w2 w2Final :=
  Relation.ReflTransGen.head c5step1
    (Relation.ReflTransGen.head c5step2
      (Relation.ReflTransGen.head c5step3
        (Relation.ReflTransGen.head c5step4
          (Relation.ReflTransGen.head c5step5
            (Relation.ReflTransGen.head c5step6
              (Relation.ReflTransGen.head c5step7
                (Relation.ReflTransGen.head c5step8
                  (Relation.ReflTransGen.head c5step9
                    (Relation.ReflTransGen.head c5step10
                      (Relation.ReflTransGen.head c5step11
                        (Relation.ReflTransGen.head c5step12
                          Relation.ReflTransGen.refl)))))))))))

lemma scriptOk_fetchRepos (w : World) : ScriptOk w (fetchRepos w) := by
  intro m hm
  unfold fetchRepos at hm
  cases hcat : w.catalog with
  | none => rw [hcat] at hm; simp at hm
  | some repos =>
    rw [hcat] at hm
    simp only [List.mem_cons] at hm
    rcases hm with hm | hm | hm
    · cases hm
      intro r hr
      simp [catalogRepos, hcat, hr]
    · cases hm
    · simp at hm

lemma scriptOk_fetchTags (w : World) (repo : String) (hr : repo ∈ catalogRepos w) :
    ScriptOk w (fetchTags w repo) := by
  intro m hm
  unfold fetchTags at hm
  cases ht : w.tagsOf repo with
  | none => rw [ht] at hm; simp at hm
  | some tags =>
    rw [ht] at hm
    simp only [List.mem_cons] at hm
    rcases hm with hm | hm | hm
    · cases hm
      exact hr
    · cases hm
    · simp at hm

lemma scriptOk_fetchDetailOfTag (w : World) (repo tag : String)
    (hr : repo ∈ catalogRepos w) : ScriptOk w (fetchDetailOfTag w repo tag) := by
  intro m hm
  cases hman : w.manifestOf repo tag with
  | none => simp only [fetchDetailOfTag, hman] at hm; simp at hm
  | some hist =>
    simp only [fetchDetailOfTag, hman] at hm
    cases hana : analyzeHistory hist with
    | abort => simp only [hana] at hm; simp at hm
    | crash => simp only [hana] at hm; simp at hm
    | created t =>
      simp only [hana, List.mem_cons] at hm
      rcases hm with hm | hm | hm
      · cases hm
        exact hr
      · cases hm
      · simp at hm

lemma scriptOk_spawned (w : World) (res : List (String × List TagDetail)) (m : Msg)
    (hm : MsgOk w m) : ∀ t ∈ (processMsg w res m).2, ScriptOk w t := by
  cases m with
  | repoList rs =>
    intro t ht
    simp only [processMsg, List.mem_map] at ht
    obtain ⟨r, hr, rfl⟩ := ht
    exact scriptOk_fetchTags w r (hm r hr)
  | tagList repo tags =>
    intro t ht
    simp only [processMsg, List.mem_map] at ht
    obtain ⟨tg, _, rfl⟩ := ht
    exact scriptOk_fetchDetailOfTag w repo tg hm
  | tagDetail repo tag ts =>
    intro t ht
    simp [processMsg] at ht

lemma scriptOk_of_cons (w : World) (a : TaskAction) (t : List TaskAction)
    (h : ScriptOk w (a :: t)) : ScriptOk w t :=
  fun m hm => h m (List.mem_cons_of_mem _ hm)

lemma mem_set_elim {α : Type} (l : List α) (i : Nat) (x a : α)
    (h : a ∈ l.set i x) : a = x ∨ a ∈ l := by
  induction l generalizing i with
  | nil => simp [List.set] at h
  | cons b bs ih =>
    cases i with
    | zero =>
      simp only [List.set, List.mem_cons] at h
      rcases h with rfl | h
      · exact Or.inl rfl
      · exact Or.inr (List.mem_cons_of_mem _ h)
    | succ j =>
      simp only [List.set, List.mem_cons] at h
      rcases h with rfl | h
      · exact Or.inr (List.mem_cons_self _ _)
      · rcases ih j h with h2 | h2
        · exact Or.inl h2
        · exact Or.inr (List.mem_cons_of_mem _ h2)

lemma mem_of_get?_eq {α : Type} (l : List α) (i : Nat) (a : α)
    (h : l.get? i = some a) : a ∈ l := by
  induction l generalizing i with
  | nil => simp [List.get?] at h
  | cons b bs ih =>
    cases i with
    | zero =>
      simp only [List.get?] at h
      cases h
      exact List.mem_cons_self _ _
    | succ j =>
      simp only [List.get?] at h
      exact List.mem_cons_of_mem _ (ih j h)

lemma lookupRepo_insertDetail_self (res : List (String × List TagDetail))
    (repo : String) (d : TagDetail) :
    lookupRepo (insertDetail res repo d) repo = some ((lookupRepo res repo).getD [] ++ [d]) := by
  induction res with
  | nil => simp [insertDetail, lookupRepo]
  | cons p rest ih =>
    obtain ⟨k, v⟩ := p
    simp only [insertDetail]
    by_cases hk : k = repo
    · subst hk
      simp [lookupRepo]
    · simp [lookupRepo, hk, ih]

lemma lookupRepo_insertDetail_ne (res : List (String × List TagDetail))
    (repo : String) (d : TagDetail) (k : String) (h : k ≠ repo) :
    lookupRepo (insertDetail res repo d) k = lookupRepo res k := by
  induction res with
  | nil =>
    simp only [insertDetail, lookupRepo]
    rw [if_neg (fun h2 => h h2.symm)]
  | cons p rest ih =>
    obtain ⟨k2, v⟩ := p
    simp only [insertDetail]
    by_cases hk : k2 = repo
    · subst hk
      have : k2 ≠ k := fun h2 => h h2.symm
      simp [lookupRepo, this]
    · by_cases hq : k2 = k
      · subst hq
        simp [lookupRepo, hk]
      · simp [lookupRepo, hq, hk, ih]

lemma sortedResult_lookup_isSome {res outp : List (String × List TagDetail)}
    (h : SortedResult res outp) (k : String) :
    (lookupRepo outp k).isSome = (lookupRepo res k).isSome := by
  induction h with
  | nil => rfl
  | cons k2 v v2 rest rest2 hsd hrest ih =>
    simp only [lookupRepo]
    split <;> simp [ih]

lemma sortedResult_lookup_some {res outp : List (String × List TagDetail)}
    (h : SortedResult res outp) (k : String) (l2 : List TagDetail)
    (hl : lookupRepo outp k = some l2) :
    ∃ l, lookupRepo res k = some l ∧ SortedDesc l l2 := by
  induction h generalizing l2 with
  | nil => simp [lookupRepo] at hl
  | cons k2 v v2 rest rest2 hsd hrest ih =>
    simp only [lookupRepo] at hl ⊢
    split at hl
    · cases hl
      rename_i hk
      simp only [if_pos hk]
      exact ⟨v, rfl, hsd⟩
    · rename_i hk
      simp only [if_neg hk]
      exact ih l2 hl

theorem inv_init (w : World) : RunInv w (initState w) := by
  refine ⟨?_, ?_, ?_, ?_, ?_, ?_, ?_, ?_⟩
  · intro t ht
    simp only [initState, List.mem_singleton] at ht
    subst ht
    exact scriptOk_fetchRepos w
  · intro k hk
    simp [initState, lookupRepo] at hk
  · intro k l hl
    simp [initState, lookupRepo] at hl
  · intro k
    simp [initState, lookupRepo]
  · intro _ k hk
    simp [initState, lookupRepo] at hk
  · intro _ k l hl
    simp [initState, lookupRepo] at hl
  · intro _ k l hl
    simp [initState, lookupRepo] at hl
  · intro _ k
    simp [initState, lookupRepo]

theorem inv_step {w : World} {s s2 : SysState} (inv : RunInv w s) (hst : Step w s s2) :
    RunInv w s2 := by
  cases hst with
  | runAdd i n rest hc h =>
    refine ⟨?_, inv.resultKeys, inv.resultNonempty, inv.resultIff,
      inv.finKeys, inv.finNonempty, inv.finSorted, inv.finIff⟩
    intro t ht
    rcases mem_set_elim s.tasks i rest t ht with rfl | ht2
    · exact scriptOk_of_cons w _ _ (inv.tasksOk _ (mem_of_get?_eq _ _ _ h))
    · exact inv.tasksOk t ht2
  | runDone i rest hc h =>
    refine ⟨?_, inv.resultKeys, inv.resultNonempty, inv.resultIff,
      inv.finKeys, inv.finNonempty, inv.finSorted, inv.finIff⟩
    intro t ht
    rcases mem_set_elim s.tasks i rest t ht with rfl | ht2
    · exact scriptOk_of_cons w _ _ (inv.tasksOk _ (mem_of_get?_eq _ _ _ h))
    · exact inv.tasksOk t ht2
  | runCrash i rest hc h =>
    exact ⟨inv.tasksOk, inv.resultKeys, inv.resultNonempty, inv.resultIff,
      inv.finKeys, inv.finNonempty, inv.finSorted, inv.finIff⟩
  | waitReturns hc h0 hf =>
    exact ⟨inv.tasksOk, inv.resultKeys, inv.resultNonempty, inv.resultIff,
      inv.finKeys, inv.finNonempty, inv.finSorted, inv.finIff⟩
  | deliverDone outp hc hfd hfin hsort =>
    refine ⟨inv.tasksOk, inv.resultKeys, inv.resultNonempty, inv.resultIff,
      ?_, ?_, ?_, ?_⟩
    · intro _ k hk
      rw [show ({s with finalized := true, finalResult := outp} : SysState).finalResult = outp
        from rfl, sortedResult_lookup_isSome hsort k] at hk
      exact inv.resultKeys k hk
    · intro _ k l2 hl2
      obtain ⟨l, hl, hsd⟩ := sortedResult_lookup_some hsort k l2 hl2
      intro hnil
      subst hnil
      exact inv.resultNonempty k l hl (hsd.1.symm.eq_nil)
    · intro _ k l2 hl2
      obtain ⟨l, hl, hsd⟩ := sortedResult_lookup_some hsort k l2 hl2
      exact hsd.2
    · intro _ k
      rw [show ({s with finalized := true, finalResult := outp} : SysState).finalResult = outp
        from rfl, sortedResult_lookup_isSome hsort k]
      exact inv.resultIff k
  | runSend i m rest hc hf h =>
    have hsOk : ScriptOk w (TaskAction.send m :: rest) :=
      inv.tasksOk _ (mem_of_get?_eq _ _ _ h)
    have hmOk : MsgOk w m := hsOk m (List.mem_cons_self _ _)
    have htasks : ∀ t ∈ s.tasks.set i rest ++ (processMsg w s.result m).2, ScriptOk w t := by
      intro t ht
      rcases List.mem_append.mp ht with h1 | h1
      · rcases mem_set_elim s.tasks i rest t h1 with rfl | ht2
        · exact scriptOk_of_cons w _ _ (inv.tasksOk _ (mem_of_get?_eq _ _ _ h))
        · exact inv.tasksOk t ht2
      · exact scriptOk_spawned w s.result m hmOk t h1
    have hNoFin : ∀ (P : Prop), s.finalized = true → P := by
      intro P hfin
      exact absurd (hf.symm.trans hfin) Bool.false_ne_true
    cases m with
    | repoList rs =>
      refine ⟨htasks, inv.resultKeys, inv.resultNonempty, ?_,
        fun hfin => hNoFin _ hfin, fun hfin => hNoFin _ hfin,
        fun hfin => hNoFin _ hfin, fun hfin => hNoFin _ hfin⟩
      intro k
      constructor
      · intro hk
        obtain ⟨tg, ts, hmem⟩ := (inv.resultIff k).mp hk
        exact ⟨tg, ts, List.mem_append_left _ hmem⟩
      · rintro ⟨tg, ts, hmem⟩
        rcases List.mem_append.mp hmem with h1 | h1
        · exact (inv.resultIff k).mpr ⟨tg, ts, h1⟩
        · simp at h1
    | tagList repo tags =>
      refine ⟨htasks, inv.resultKeys, inv.resultNonempty, ?_,
        fun hfin => hNoFin _ hfin, fun hfin => hNoFin _ hfin,
        fun hfin => hNoFin _ hfin, fun hfin => hNoFin _ hfin⟩
      intro k
      constructor
      · intro hk
        obtain ⟨tg, ts, hmem⟩ := (inv.resultIff k).mp hk
        exact ⟨tg, ts, List.mem_append_left _ hmem⟩
      · rintro ⟨tg, ts, hmem⟩
        rcases List.mem_append.mp hmem with h1 | h1
        · exact (inv.resultIff k).mpr ⟨tg, ts, h1⟩
        · simp at h1
    | tagDetail repo tg0 ts0 =>
      have hrepo : repo ∈ catalogRepos w := hmOk
      refine ⟨htasks, ?_, ?_, ?_,
        fun hfin => hNoFin _ hfin, fun hfin => hNoFin _ hfin,
        fun hfin => hNoFin _ hfin, fun hfin => hNoFin _ hfin⟩
      · intro k hk
        by_cases hkr : k = repo
        · subst hkr
          exact hrepo
        · rw [show ({s with
              tasks := s.tasks.set i rest ++ (processMsg w s.result (Msg.tagDetail repo tg0 ts0)).2,
              result := (processMsg w s.result (Msg.tagDetail repo tg0 ts0)).1,
              processed := s.processed ++ [Msg.tagDetail repo tg0 ts0]} : SysState).result
            = insertDetail s.result repo ⟨tg0, ts0⟩ from rfl,
            lookupRepo_insertDetail_ne s.result repo ⟨tg0, ts0⟩ k hkr] at hk
          exact inv.resultKeys k hk
      · intro k l hl
        by_cases hkr : k = repo
        · subst hkr
          rw [show ({s with
              tasks := s.tasks.set i rest ++ (processMsg w s.result (Msg.tagDetail k tg0 ts0)).2,
              result := (processMsg w s.result (Msg.tagDetail k tg0 ts0)).1,
              processed := s.processed ++ [Msg.tagDetail k tg0 ts0]} : SysState).result
            = insertDetail s.result k ⟨tg0, ts0⟩ from rfl,
            lookupRepo_insertDetail_self s.result k ⟨tg0, ts0⟩] at hl
          cases hl
          simp
        · rw [show ({s with
              tasks := s.tasks.set i rest ++ (processMsg w s.result (Msg.tagDetail repo tg0 ts0)).2,
              result := (processMsg w s.result (Msg.tagDetail repo tg0 ts0)).1,
              processed := s.processed ++ [Msg.tagDetail repo tg0 ts0]} : SysState).result
            = insertDetail s.result repo ⟨tg0, ts0⟩ from rfl,
            lookupRepo_insertDetail_ne s.result repo ⟨tg0, ts0⟩ k hkr] at hl
          exact inv.resultNonempty k l hl
      · intro k
        by_cases hkr : k = repo
        · subst hkr
          constructor
          · intro _
            exact ⟨tg0, ts0, List.mem_append_right _ (by simp)⟩
          · intro _
            rw [show ({s with
                tasks := s.tasks.set i rest ++ (processMsg w s.result (Msg.tagDetail k tg0 ts0)).2,
                result := (processMsg w s.result (Msg.tagDetail k tg0 ts0)).1,
                processed := s.processed ++ [Msg.tagDetail k tg0 ts0]} : SysState).result
              = insertDetail s.result k ⟨tg0, ts0⟩ from rfl,
              lookupRepo_insertDetail_self s.result k ⟨tg0, ts0⟩]
            rfl
        · rw [show ({s with
              tasks := s.tasks.set i rest ++ (processMsg w s.result (Msg.tagDetail repo tg0 ts0)).2,
              result := (processMsg w s.result (Msg.tagDetail repo tg0 ts0)).1,
              processed := s.processed ++ [Msg.tagDetail repo tg0 ts0]} : SysState).result
            = insertDetail s.result repo ⟨tg0, ts0⟩ from rfl,
            lookupRepo_insertDetail_ne s.result repo ⟨tg0, ts0⟩ k hkr]
          constructor
          · intro hk
            obtain ⟨tg, ts, hmem⟩ := (inv.resultIff k).mp hk
            exact ⟨tg, ts, List.mem_append_left _ hmem⟩
          · rintro ⟨tg, ts, hmem⟩
            rcases List.mem_append.mp hmem with h1 | h1
            · exact (inv.resultIff k).mpr ⟨tg, ts, h1⟩
            · have := List.mem_singleton.mp h1
              injection this with e1 e2 e3
              exact absurd e1 hkr

theorem inv_reachable {w : World} {s : SysState} (h : Reachable w s) : RunInv w s := by
  induction h with
  | refl => exact inv_init w
  | tail h1 h2 ih => exact inv_step ih h2

/-- C1: the claim says the outstanding-work counter never reaches zero while
an unprocessed child task exists and the owner finalizes only after the
single justified done event. The code violates this: `fetchRepos` executes
`wg.Add(len(repos))` only after its channel send, and the dispatcher spawns
the child `fetchTags` goroutines upon receiving that send, so a fast-failing
child can retire the root's single registered unit first. In world `w1`
(catalog `[r1, r2]`, `r1`'s tag fetch failing fast) the run reaches a state
that is finalized with an empty result while the counter is zero, the
`wg.Add(2)` of `fetchRepos` is still pending, and the spawned `fetchTags r2`
task (a live repository) is entirely unprocessed. -/
theorem c1_early_completion_race :
    Reachable w1 sBadC1 ∧ sBadC1.counter = 0 ∧ sBadC1.finalized = true ∧
    sBadC1.finalResult = [] ∧
    sBadC1.tasks.get? 0 = some [TaskAction.add 2, TaskAction.done] ∧
    sBadC1.tasks.get? 2 = some (fetchTags w1 "r2") ∧
    fetchTags w1 "r2" ≠ [] :=
  ⟨reach_w1_bad, rfl, rfl, rfl, rfl, rfl, by decide⟩

/-- C2: the claim says an entry whose embedded JSON fails to parse is
skipped and CreatedAt is the maximum over the entries that parse. The code
instead aborts the whole analysis at the first bad entry (`log.Println(err);
return`): with history `[(ok, 5), (bad)]` the result is `abort` and the
spawned task only retires its unit (`[done]`), although the same history
without the bad entry yields `created 5`. -/
theorem c2_abort_on_unparsable_entry :
    analyzeHistory [⟨true, some 5⟩, ⟨false, none⟩] = AnalyzeResult.abort ∧
    fetchDetailOfTag w5 "r" "t" = [TaskAction.done] ∧
    analyzeHistory [⟨true, some 5⟩] = AnalyzeResult.created 5 :=
  ⟨rfl, rfl, rfl⟩

/-- C3: the claim says an empty history list yields an explicit unavailable
marker and never a crash from indexing an empty collection. The code indexes
`h[len(h)-1]` with `len(h) = 0` and panics; and when every entry fails to
parse it aborts with no marker at all. -/
theorem c3_crash_on_empty_history :
    analyzeHistory [] = AnalyzeResult.crash ∧
    fetchDetailOfTag w6 "r" "t" = [TaskAction.crash] ∧
    analyzeHistory [⟨false, none⟩] = AnalyzeResult.abort :=
  ⟨rfl, rfl, rfl⟩

/-- C4: every key of the final result map of a finalized run is a member of
the repository list returned by the catalog call. -/
theorem c4_keys_subset_catalog (w : World) (s : SysState)
    (hr : Reachable w s) (hf : s.finalized = true) (k : String)
    (hk : (lookupRepo s.finalResult k).isSome = true) : k ∈ catalogRepos w :=
  (inv_reachable hr).finKeys hf k hk

theorem c4_keys_subset_catalog_witness :
    w2Final.finalized = true ∧ (lookupRepo w2Final.finalResult "r").isSome = true ∧
    "r" ∈ catalogRepos w2 :=
  ⟨rfl, rfl, c4_keys_subset_catalog w2 w2Final reach_w2_final rfl "r" rfl⟩

/-- C5 counterexample: the claim additionally requires entries with equal
`CreatedAt` to be ordered by tag name ascending. The comparator passed to
`sort.Slice` only compares `Created`, so arrival order decides ties: the
run `reach_w2_final` of world `w2` (tags `a` and `b` with equal timestamp
`5`) finalizes with the sequence `[b, a]`, not the tag-ascending `[a, b]`. -/
theorem c5_ties_not_tag_ascending :
    Reachable w2 w2Final ∧ w2Final.finalized = true ∧
    lookupRepo w2Final.finalResult "r" = some [⟨"b", 5⟩, ⟨"a", 5⟩] ∧
    ([⟨"b", 5⟩, ⟨"a", 5⟩] : List TagDetail) ≠ [⟨"a", 5⟩, ⟨"b", 5⟩] :=
  ⟨reach_w2_final, rfl, rfl, by decide⟩

/-- C5 as amended: in every finalized run, every repository's sequence is
non-increasing in `CreatedAt`; the order among entries with equal
`CreatedAt` is left unspecified by the code. -/
theorem c5_created_non_increasing (w : World) (s : SysState)
    (hr : Reachable w s) (hf : s.finalized = true) (k : String) (l : List TagDetail)
    (hl : lookupRepo s.finalResult k = some l) :
    l.Pairwise (fun a b => b.Created ≤ a.Created) :=
  (inv_reachable hr).finSorted hf k l hl

theorem c5_created_non_increasing_witness :
    w2Final.finalized = true ∧
    ([⟨"b", 5⟩, ⟨"a", 5⟩] : List TagDetail).Pairwise (fun a b => b.Created ≤ a.Created) :=
  ⟨rfl, c5_created_non_increasing w2 w2Final reach_w2_final rfl "r" [⟨"b", 5⟩, ⟨"a", 5⟩] rfl⟩

/-- C6 counterexample: the claim says a non-2xx status whose body is empty
or undecodable yields a distinct HTTPStatusError. The code has no such error
class: a 404 response with an undecodable (e.g. empty) body produces exactly
the same generic `json.Unmarshal` decode error as a 200 response with an
undecodable body. -/
theorem c6_no_distinct_status_error :
    getForMap (Except.ok ({ statusCode := 404, readAllErr := none, bodyJson := none } :
      HttpResponse Nat)) = Except.error FetchErr.decodeFailed ∧
    getForMap (Except.ok ({ statusCode := 200, readAllErr := none, bodyJson := none } :
      HttpResponse Nat)) = Except.error FetchErr.decodeFailed :=
  ⟨rfl, rfl⟩

/-- C6 as amended: when `ReadAll` succeeds, the body is decoded as JSON
regardless of the HTTP status code, and a response with an empty or
undecodable body yields the generic decode error whatever the status —
there is no distinct HTTP-status error in the code. -/
theorem c6_decode_regardless_of_status (α : Type) (res : HttpResponse α)
    (h : res.readAllErr = none) :
    (∀ m, res.bodyJson = some m → getForMap (Except.ok res) = Except.ok m) ∧
    (res.bodyJson = none → getForMap (Except.ok res) = Except.error FetchErr.decodeFailed) := by
  constructor
  · intro m hm
    simp [getForMap, h, hm]
  · intro hm
    simp [getForMap, h, hm]

theorem c6_decode_regardless_of_status_witness :
    getForMap (Except.ok ({ statusCode := 500, readAllErr := none, bodyJson := some 3 } :
      HttpResponse Nat)) = Except.ok 3 ∧
    getForMap (Except.ok ({ statusCode := 404, readAllErr := none, bodyJson := none } :
      HttpResponse Nat)) = Except.error FetchErr.decodeFailed :=
  ⟨(c6_decode_regardless_of_status Nat ⟨500, none, some 3⟩ rfl).1 3 rfl,
   (c6_decode_regardless_of_status Nat ⟨404, none, none⟩ rfl).2 rfl⟩

/-- C7 counterexample: the claim includes timestamp-parse errors among the
errors after which a task contributes no message. The code discards the
`time.Parse` error (`created, _ := ...`), so a task whose only history entry
has an unparsable `created` field still emits a `TagDetail` payload, carrying
the zero time. -/
theorem c7_timestamp_error_still_emits :
    fetchDetailOfTag w3 "r" "t" =
      [TaskAction.send (Msg.tagDetail "r" "t" 0), TaskAction.done] ∧
    TaskAction.send (Msg.tagDetail "r" "t" 0) ∈ fetchDetailOfTag w3 "r" "t" :=
  ⟨rfl, by decide⟩

/-- C7 as amended: a network/HTTP/decode error of the fetch itself, and an
embedded-JSON decode error of a history entry, cause the task to log,
contribute no message, and only retire its own outstanding unit (`[done]`);
a timestamp-parse error is instead ignored and the task still emits. -/
theorem c7_fetch_errors_drop_silently (w : World) (r t : String) :
    (w.catalog = none → fetchRepos w = [TaskAction.done]) ∧
    (w.tagsOf r = none → fetchTags w r = [TaskAction.done]) ∧
    (w.manifestOf r t = none → fetchDetailOfTag w r t = [TaskAction.done]) ∧
    (∀ hist, w.manifestOf r t = some hist → analyzeHistory hist = AnalyzeResult.abort →
      fetchDetailOfTag w r t = [TaskAction.done]) := by
  refine ⟨?_, ?_, ?_, ?_⟩
  · intro h
    simp [fetchRepos, h]
  · intro h
    simp [fetchTags, h]
  · intro h
    simp [fetchDetailOfTag, h]
  · intro hist h hana
    simp [fetchDetailOfTag, h, hana]

theorem c7_fetch_errors_drop_silently_witness :
    fetchRepos w4 = [TaskAction.done] ∧
    fetchTags w4 "q" = [TaskAction.done] ∧
    fetchDetailOfTag w4 "x" "y" = [TaskAction.done] ∧
    fetchDetailOfTag w4 "r" "t" = [TaskAction.done] :=
  ⟨(c7_fetch_errors_drop_silently w4 "q" "y").1 rfl,
   (c7_fetch_errors_drop_silently w4 "q" "y").2.1 rfl,
   (c7_fetch_errors_drop_silently w4 "x" "y").2.2.1 rfl,
   (c7_fetch_errors_drop_silently w4 "r" "t").2.2.2 [⟨false, none⟩] rfl rfl⟩

/-- C8: `findRegistry` compares aliases case-insensitively (`EqualFold`) and
returns the first matching entry of the configuration, so with duplicate
aliases the earlier entry wins; and its result only depends on the query up
to case. -/
theorem c8_findRegistry_first_match_case_insensitive :
    (∀ (pre post : List Registry) (r : Registry) (a : String),
      (∀ x ∈ pre, equalFold x.Alias a = false) → equalFold r.Alias a = true →
      findRegistry ⟨pre ++ r :: post⟩ a = some r) ∧
    (∀ (conf : Config) (a b : String), lowerStr a = lowerStr b →
      findRegistry conf a = findRegistry conf b) := by
  constructor
  · intro pre
    induction pre with
    | nil =>
      intro post r a _ hr
      simp [findRegistry, findRegistryAux, hr]
    | cons x xs ih =>
      intro post r a hpre hr
      have hx : equalFold x.Alias a = false := hpre x (by simp)
      simp only [findRegistry, List.cons_append, findRegistryAux, hx, Bool.false_eq_true,
        if_false]
      exact ih post r a (fun y hy => hpre y (by simp [hy])) hr
  · intro conf a b hab
    have aux : ∀ l : List Registry, findRegistryAux l a = findRegistryAux l b := by
      intro l
      induction l with
      | nil => rfl
      | cons x xs ih =>
        have : equalFold x.Alias a = equalFold x.Alias b := by
          simp [equalFold, hab]
        simp only [findRegistryAux, this, ih]
    exact aux conf.Registries

theorem c8_findRegistry_witness :
    findRegistry conf0 "REG01" = some regA ∧
    findRegistry conf0 "REG01" = findRegistry conf0 "Reg01" :=
  ⟨c8_findRegistry_first_match_case_insensitive.1 [regLocal] [regB] regA "REG01"
      (by decide) (by decide),
   c8_findRegistry_first_match_case_insensitive.2 conf0 "REG01" "Reg01" (by decide)⟩

/-- C9: a history entry whose embedded JSON parses but whose `created` field
does not parse contributes Go's zero time (`0`) to the candidate set of the
maximum, because the parse error is discarded; hence when every entry
parses, the analysis yields the maximum of the per-entry values with `0`
substituted for unparsable timestamps, and a manifest all of whose `created`
fields are unparsable is reported with the zero timestamp rather than
dropped or marked unavailable. -/
theorem c9_unparsable_created_is_zero (w : World) (r t : String)
    (hist : List HistoryEntry) (hman : w.manifestOf r t = some hist)
    (h1 : hist ≠ []) (h2 : ∀ e ∈ hist, e.v1Parses = true) :
    analyzeHistory hist =
      AnalyzeResult.created (listMax (hist.map (fun e => e.created.getD 0))) ∧
    ((∀ e ∈ hist, e.created = none) →
      fetchDetailOfTag w r t = [TaskAction.send (Msg.tagDetail r t 0), TaskAction.done]) := by
  constructor
  · exact analyzeHistory_all_parse hist h1 h2
  · intro hnone
    have hzero : listMax (hist.map (fun e => e.created.getD 0)) = 0 := by
      apply listMax_all_zero
      intro x hx
      obtain ⟨e, he, rfl⟩ := List.mem_map.mp hx
      rw [hnone e he]
      rfl
    have hana : analyzeHistory hist = AnalyzeResult.created 0 := by
      rw [analyzeHistory_all_parse hist h1 h2, hzero]
    simp [fetchDetailOfTag, hman, hana]

theorem c9_unparsable_created_is_zero_witness :
    analyzeHistory [⟨true, none⟩] = AnalyzeResult.created 0 ∧
    fetchDetailOfTag w3 "r" "t" =
      [TaskAction.send (Msg.tagDetail "r" "t" 0), TaskAction.done] :=
  ⟨(c9_unparsable_created_is_zero w3 "r" "t" [⟨true, none⟩] rfl (by decide) (by decide)).1,
   (c9_unparsable_created_is_zero w3 "r" "t" [⟨true, none⟩] rfl (by decide) (by decide)).2
      (by decide)⟩

/-- C10: in every finalized run, a repository name is a key of the final
output if and only if at least one `TagDetail` payload for it was processed,
and every present key maps to a nonempty sequence — a repository with an
empty tag list or only failed fetches is omitted entirely, never mapped to
an empty sequence. -/
theorem c10_key_iff_detail_processed (w : World) (s : SysState)
    (hr : Reachable w s) (hf : s.finalized = true) (k : String) :
    ((lookupRepo s.finalResult k).isSome = true ↔
      ∃ tg ts, Msg.tagDetail k tg ts ∈ s.processed) ∧
    (∀ l, lookupRepo s.finalResult k = some l → l ≠ []) :=
  ⟨(inv_reachable hr).finIff hf k,
   fun l hl => (inv_reachable hr).finNonempty hf k l hl⟩

theorem c10_key_iff_detail_processed_witness :
    ∃ tg ts, Msg.tagDetail "r" tg ts ∈ w2Final.processed :=
  (c10_key_iff_detail_processed w2 w2Final reach_w2_final rfl "r").1.mp rfl

